import Mathlib

/-!
Verification of the address-parsing core of RustScan (`src/address.rs`).

The Rust code is shallowly embedded: pure library parsing (`std::net`
address parsing, the `cidr` crate's CIDR/Inet parsing) is reimplemented
faithfully as executable Lean functions; the effectful boundaries
(DNS lookups via `to_socket_addrs` / `hickory_resolver`, the file
system, and the fallible `Resolver::new` constructor) are modelled as
explicit environment records whose fields the embedded functions
consult.  IPv4/IPv6 addresses are modelled as `Nat` values below
`2^32` / `2^128`; machine words never overflow in the Rust code
(addresses are parsed, not computed), so no modular arithmetic is
needed.
-/

namespace RustScan

/-- The two IP address families. -/
inductive IpFam where
  | v4
  | v6
deriving DecidableEq

/-- Bit width of an address family (32 for v4, 128 for v6). -/
def IpFam.bits : IpFam → Nat
  | .v4 => 32
  | .v6 => 128

/-- `std::net::IpAddr`: an IPv4 or IPv6 address, as its numeric value. -/
inductive IpAddr where
  | v4 (val : Nat)
  | v6 (val : Nat)
deriving DecidableEq

/-- Numeric value of an address. -/
def IpAddr.val : IpAddr → Nat
  | .v4 n => n
  | .v6 n => n

/-- Family of an address. -/
def IpAddr.fam : IpAddr → IpFam
  | .v4 _ => .v4
  | .v6 _ => .v6

/-- Build an address of a given family from its numeric value. -/
def IpAddr.ofFam : IpFam → Nat → IpAddr
  | .v4, n => .v4 n
  | .v6, n => .v6 n

/-! ### Character-level helpers for the `std::net` string parsers -/

/-- Numeric value of a decimal digit character. -/
def decVal (c : Char) : Nat := c.toNat - 48

/-- Hexadecimal digit recognizer (as in `char::to_digit(16)`). -/
def isHexDigitChar (c : Char) : Bool :=
  c.isDigit || ('a' ≤ c && c ≤ 'f') || ('A' ≤ c && c ≤ 'F')

/-- Numeric value of a hexadecimal digit character. -/
def hexVal (c : Char) : Nat :=
  if c.isDigit then c.toNat - 48
  else if 'a' ≤ c && c ≤ 'f' then c.toNat - 87
  else c.toNat - 55

/-- Value of a decimal digit string (most significant first). -/
def digitsVal (ds : List Char) : Nat := ds.foldl (fun a c => a * 10 + decVal c) 0

/-- Value of a hexadecimal digit string (most significant first). -/
def hexDigitsVal (ds : List Char) : Nat := ds.foldl (fun a c => a * 16 + hexVal c) 0

/-!
`core::net::parser::Parser::read_number(10, Some(3), false)`: read the
maximal run of decimal digits; fail if it is empty, longer than three
digits, has a redundant leading zero, or exceeds `u8::MAX`.  Returns the
octet value and the unconsumed remainder of the input.
-/

/-- Read one IPv4 octet from the front of `cs` (std `read_number` semantics). -/
def readOctet (cs : List Char) : Option (Nat × List Char) :=
  let ds := cs.takeWhile Char.isDigit
  if ds.isEmpty then none
  else if 3 < ds.length then none
  else if 1 < ds.length && ds.head? == some '0' then none
  else if 255 < digitsVal ds then none
  else some (digitsVal ds, cs.dropWhile Char.isDigit)

/-- Read a `'.'` separator followed by an IPv4 octet. -/
def readDotOctet (cs : List Char) : Option (Nat × List Char) :=
  match cs with
  | '.' :: rest => readOctet rest
  | _ => none

/-- `Parser::read_ipv4_addr`: four dot-separated octets, big-endian value.
Consumes a maximal prefix and returns the remainder. -/
def readIpv4 (cs : List Char) : Option (Nat × List Char) :=
  (readOctet cs).bind fun p1 =>
  (readDotOctet p1.2).bind fun p2 =>
  (readDotOctet p2.2).bind fun p3 =>
  (readDotOctet p3.2).map fun p4 =>
  (((p1.1 * 256 + p2.1) * 256 + p3.1) * 256 + p4.1, p4.2)

/-- `Ipv4Addr::from_str`: an IPv4 literal must consume the whole string. -/
def parseIpv4 (s : String) : Option Nat :=
  match readIpv4 s.data with
  | some (v, []) => some v
  | _ => none

/-- `Parser::read_number(16, Some(4), true)`: one IPv6 group of one to
four hexadecimal digits (leading zeros allowed). -/
def readGroup (cs : List Char) : Option (Nat × List Char) :=
  let ds := cs.takeWhile isHexDigitChar
  if ds.isEmpty then none
  else if 4 < ds.length then none
  else some (hexDigitsVal ds, cs.dropWhile isHexDigitChar)

/-- `Parser::read_separator(':', i, inner)`: for every position after the
first, a `':'` must precede the item; backtracking is implicit in the
pure encoding. -/
def readSepB (needSep : Bool) (cs : List Char) (inner : List Char → Option (Nat × List Char)) :
    Option (Nat × List Char) :=
  if needSep then
    match cs with
    | ':' :: rest => inner rest
    | _ => none
  else inner cs

/-- `Parser::read_groups`: read up to `rem` colon-separated 16-bit groups;
an embedded IPv4 (filling the final two group slots) is attempted first
whenever at least two slots remain.  Returns the groups read, whether an
embedded IPv4 ended the run, and the unconsumed remainder.  `needSep` is
false only for the first slot (`i = 0` in the Rust loop). -/
def readGroups (rem : Nat) (needSep : Bool) (cs : List Char) : List Nat × Bool × List Char :=
  match rem with
  | 0 => ([], false, cs)
  | rem' + 1 =>
    match (if 1 ≤ rem' then readSepB needSep cs readIpv4 else none) with
    | some (v4, rest) => ([v4 / 65536, v4 % 65536], true, rest)
    | none =>
      match readSepB needSep cs readGroup with
      | some (g, rest) =>
        let t := readGroups rem' true rest
        (g :: t.1, t.2.1, t.2.2)
      | none => ([], false, cs)

/-- Big-endian value of a list of 16-bit groups. -/
def groupsVal (gs : List Nat) : Nat := gs.foldl (fun a g => a * 65536 + g) 0

/-- `Parser::read_ipv6_addr`: head groups, then optionally `::` and tail
groups; `::` stands for at least one zero group. -/
def readIpv6 (cs : List Char) : Option (Nat × List Char) :=
  let h := readGroups 8 false cs
  let head := h.1
  if head.length = 8 then some (groupsVal head, h.2.2)
  else if h.2.1 then none
  else
    match h.2.2 with
    | ':' :: ':' :: r2 =>
      let t := readGroups (8 - (head.length + 1)) false r2
      some (groupsVal (head ++ List.replicate (8 - head.length - t.1.length) 0 ++ t.1), t.2.2)
    | _ => none

/-- `Ipv6Addr::from_str`: an IPv6 literal must consume the whole string. -/
def parseIpv6 (s : String) : Option Nat :=
  match readIpv6 s.data with
  | some (v, []) => some v
  | _ => none

/-- `IpAddr::from_str`: try IPv4, then IPv6 (the two grammars accept
disjoint full strings, so the order only matters for failure). -/
def IpAddr.from_str (s : String) : Option IpAddr :=
  match parseIpv4 s with
  | some v => some (.v4 v)
  | none => (parseIpv6 s).map .v6

/-! ### The `cidr` crate: `IpInet` and `IpCidr` -/

/-- `cidr::IpInet`: an address together with a network length; the host
bits of `address` may be nonzero. -/
structure IpInet where
  fam : IpFam
  address : Nat
  networkLength : Nat
deriving DecidableEq

/-- `cidr::IpCidr`: a network (the constructors only ever produce
canonical values whose host bits are zero). -/
structure IpCidr where
  fam : IpFam
  address : Nat
  networkLength : Nat
deriving DecidableEq

/-- `Cidr::new_host` / `Inet::new_host`: a full-length network holding
exactly one address. -/
def IpCidr.new_host (ip : IpAddr) : IpCidr :=
  { fam := ip.fam, address := ip.val, networkLength := ip.fam.bits }

/-- `Inet::network()`: truncate the address to `networkLength` bits. -/
def IpInet.network (i : IpInet) : IpCidr :=
  { fam := i.fam
    address := i.address / 2 ^ (i.fam.bits - i.networkLength) * 2 ^ (i.fam.bits - i.networkLength)
    networkLength := i.networkLength }

/-- `IpCidr::contains`: same family and same network bits. -/
def IpCidr.contains (c : IpCidr) (ip : IpAddr) : Bool :=
  ip.fam == c.fam &&
    ip.val / 2 ^ (c.fam.bits - c.networkLength) == c.address / 2 ^ (c.fam.bits - c.networkLength)

/-- `cidr.into_iter().addresses()`: every address of the block, in
ascending numeric order from the network address to the broadcast
address. -/
def IpCidr.addresses (c : IpCidr) : List IpAddr :=
  (List.range (2 ^ (c.fam.bits - c.networkLength))).map fun i => IpAddr.ofFam c.fam (c.address + i)

/-- `str::rfind('/')` split: the characters before the last `'/'` and the
characters after it. -/
def splitLastSlash (cs : List Char) : Option (List Char × List Char) :=
  if '/' ∈ cs then
    some (((cs.reverse.dropWhile (· ≠ '/')).tail).reverse, (cs.reverse.takeWhile (· ≠ '/')).reverse)
  else none

/-- `u8::from_str` (the `cidr` crate parses the network length with it):
an optional `'+'` sign, then decimal digits fitting in a `u8`. -/
def parsePrefixLen (cs : List Char) : Option Nat :=
  let ds := match cs with
    | '+' :: rest => rest
    | _ => cs
  if ds.isEmpty then none
  else if ¬ ds.all Char.isDigit then none
  else if 255 < digitsVal ds then none
  else some (digitsVal ds)

/-- `IpInet::from_str` (`cidr` crate `parse_inet`): without a `'/'`, a
bare address becomes a full-length host inet; with one, the part before
the last `'/'` is parsed as an address and the part after it as the
network length, which must not exceed the family's bit width.  Host bits
may be nonzero. -/
def IpInet.from_str (s : String) : Option IpInet :=
  match splitLastSlash s.data with
  | none =>
    (IpAddr.from_str s).map fun a =>
      { fam := a.fam, address := a.val, networkLength := a.fam.bits }
  | some (pre, post) =>
    match IpAddr.from_str (String.mk pre), parsePrefixLen post with
    | some a, some len =>
      if len ≤ a.fam.bits then some { fam := a.fam, address := a.val, networkLength := len }
      else none
    | _, _ => none

/-- `IpCidr::from_str` (`cidr` crate `parse_cidr`): as `IpInet::from_str`,
except that `Cidr::new` additionally rejects an address with nonzero
host bits. -/
def IpCidr.from_str (s : String) : Option IpCidr :=
  match splitLastSlash s.data with
  | none => (IpAddr.from_str s).map IpCidr.new_host
  | some (pre, post) =>
    match IpAddr.from_str (String.mk pre), parsePrefixLen post with
    | some a, some len =>
      if len ≤ a.fam.bits then
        if a.val % 2 ^ (a.fam.bits - len) = 0 then
          some { fam := a.fam, address := a.val, networkLength := len }
        else none
      else none
    | _, _ => none

/-! ### Resolver model (`hickory_resolver`) -/

/-- `hickory_resolver::config::Protocol` (the variants the code uses). -/
inductive Protocol where
  | udp
  | tcp
  | tls
deriving DecidableEq

/-- `NameServerConfig::new(socket_addr, protocol)`. -/
structure NameServerConfig where
  ip : IpAddr
  port : Nat
  protocol : Protocol
deriving DecidableEq

/-- A resolver configuration: either `ResolverConfig::new()` populated by
`add_name_server`, or the fixed `ResolverConfig::cloudflare_tls()`. -/
inductive ResolverConfig where
  | explicitList (nameServers : List NameServerConfig)
  | cloudflareTls
deriving DecidableEq

/-- A constructed `Resolver` handle: built from a configuration via
`Resolver::new`, or obtained from `Resolver::from_system_conf()`. -/
inductive Resolver where
  | configured (config : ResolverConfig)
  | system
deriving DecidableEq

/-! ### Effect environments -/

/-- The DNS / resolver-construction boundary.  `toSocketAddrs s` models
`s.to_socket_addrs()` (`None` = `Err`); on the platforms the code runs
on, a successful `getaddrinfo`-backed lookup always yields at least one
socket address, which the field `toSocketAddrs_nonempty` records (the
code's `iter.next().unwrap()` relies on it).  `lookupIp` models
`Resolver::lookup_ip`; `resolverNewOk` tells whether `Resolver::new`
succeeds on a configuration, and `systemConfOk` whether
`Resolver::from_system_conf()` succeeds. -/
structure DnsEnv where
  toSocketAddrs : String → Option (List IpAddr)
  toSocketAddrs_nonempty : ∀ s l, toSocketAddrs s = some l → l ≠ []
  lookupIp : Resolver → String → Option (List IpAddr)
  resolverNewOk : ResolverConfig → Bool
  systemConfOk : Bool

/-- The file-system boundary.  `isFile` models `Path::is_file`;
`openLines` models `File::open` + `BufReader::lines` (`none` = the open
failed; each line is `none` when that line's read errored); `readLines`
models `fs::read_to_string` followed by `.lines()` (`none` = the read
failed). -/
structure FsEnv where
  isFile : String → Bool
  openLines : String → Option (List (Option String))
  readLines : String → Option (List String)

/-! ### The embedded functions of `src/address.rs` -/

/-- `resolve_ips_from_host`: try `source.to_socket_addrs()` collecting
every address; only if that errors, query the backup resolver; every
failure yields the empty list. -/
def resolve_ips_from_host (env : DnsEnv) (source : String) (backup_resolver : Resolver) :
    List IpAddr :=
  match env.toSocketAddrs source with
  | some addrs => addrs
  | none =>
    match env.lookupIp backup_resolver source with
    | some addrs => addrs
    | none => []

/-- `parse_address`: literal IP, else CIDR expansion, else hostname
resolution (OS lookup with a placeholder `:80` port first, dedicated
resolver second). -/
def parse_address (env : DnsEnv) (address : String) (resolver : Resolver) : List IpAddr :=
  match IpAddr.from_str address with
  | some addr => [addr]
  | none =>
    match IpInet.from_str address with
    | some net_addr => net_addr.network.addresses
    | none =>
      match h : env.toSocketAddrs (address ++ ":80") with
      | some l => [l.head (env.toSocketAddrs_nonempty _ _ h)]
      | none => resolve_ips_from_host env address resolver

/-- Rust `str::trim`: drop leading and trailing whitespace. -/
def trimChars (cs : List Char) : List Char :=
  ((cs.dropWhile Char.isWhitespace).reverse.dropWhile Char.isWhitespace).reverse

/-- Rust `str::split(',')`: the comma-separated fields, in order; the
empty string has one empty field. -/
def splitComma : List Char → List (List Char)
  | [] => [[]]
  | c :: rest =>
    if c = ',' then [] :: splitComma rest
    else
      match splitComma rest with
      | [] => [[c]]
      | g :: gs => (c :: g) :: gs

/-- `read_resolver_from_file`: read the file, keep the lines that parse
as IP literals after trimming; fails only if the read fails. -/
def read_resolver_from_file (fs : FsEnv) (path : String) : Option (List IpAddr) :=
  (fs.readLines path).map fun lines =>
    lines.filterMap fun line => IpAddr.from_str (String.mk (trimChars line.data))

/-- The nameserver IPs `get_resolver` derives from an explicit source:
file contents if readable, otherwise the source split on commas with
unparsable tokens skipped. -/
def resolver_ips_from_source (fs : FsEnv) (r : String) : List IpAddr :=
  match read_resolver_from_file fs r with
  | some ips => ips
  | none => (splitComma r.data).filterMap fun t => IpAddr.from_str (String.mk t)

/-- The configuration `get_resolver` builds from a list of nameserver
IPs: each on port 53 over UDP. -/
def custom_config (ips : List IpAddr) : ResolverConfig :=
  .explicitList (ips.map fun ip => { ip := ip, port := 53, protocol := .udp })

/-- `get_resolver`: with an explicit source, build a custom config and
`Resolver::new(..).unwrap()` it; without one, try the system
configuration, then `Resolver::new(cloudflare_tls).unwrap()`.  `none`
models a panic of one of the two `unwrap` calls. -/
def get_resolver (env : DnsEnv) (fs : FsEnv) (resolver : Option String) : Option Resolver :=
  match resolver with
  | some r =>
    let config := custom_config (resolver_ips_from_source fs r)
    if env.resolverNewOk config then some (.configured config) else none
  | none =>
    if env.systemConfOk then some .system
    else if env.resolverNewOk .cloudflareTls then some (.configured .cloudflareTls) else none

/-- `parse_single_excluded_address`: CIDR parse first, single-IP parse
second, hostname resolution third (one host entry per resolved
address). -/
def parse_single_excluded_address (env : DnsEnv) (addr : String) (resolver : Resolver) :
    List IpCidr :=
  match IpCidr.from_str addr with
  | some cidr => [cidr]
  | none =>
    match IpAddr.from_str addr with
    | some ip => [IpCidr.new_host ip]
    | none => (resolve_ips_from_host env addr resolver).map IpCidr.new_host

/-- `parse_excluded_networks`: flatten over the optional list of
exclusion specs. -/
def parse_excluded_networks (env : DnsEnv) (exclude_addresses : Option (List String))
    (resolver : Resolver) : List IpCidr :=
  match exclude_addresses with
  | none => []
  | some specs => specs.flatMap fun a => parse_single_excluded_address env a resolver

/-- The line loop of `read_ips_from_file`: lines whose read succeeded go
through `parse_address`; errored lines are skipped (a `debug!`, not a
warning). -/
def read_ips_lines (env : DnsEnv) (backup_resolver : Resolver) :
    List (Option String) → List IpAddr
  | [] => []
  | some address :: rest =>
    parse_address env address backup_resolver ++ read_ips_lines env backup_resolver rest
  | none :: rest => read_ips_lines env backup_resolver rest

/-- `read_ips_from_file`: fails (`Err`) exactly when `File::open`
fails; otherwise the concatenation of what every readable line
classifies to. -/
def read_ips_from_file (env : DnsEnv) (fs : FsEnv) (path : String) (backup_resolver : Resolver) :
    Option (List IpAddr) :=
  (fs.openLines path).map fun lines => read_ips_lines env backup_resolver lines

/-- The first loop of `parse_addresses`: direct tokens in order; a token
whose classification is empty is pushed onto `unresolved_addresses`. -/
def direct_pass (env : DnsEnv) (resolver : Resolver) : List String → List IpAddr × List String
  | [] => ([], [])
  | address :: rest =>
    let parsed_ips := parse_address env address resolver
    let t := direct_pass env resolver rest
    if parsed_ips.isEmpty then (t.1, address :: t.2)
    else (parsed_ips ++ t.1, t.2)

/-- The message of the `warning!` macro invocation
`format!("Host {file_path:?} could not be resolved.")` (the `Debug`
rendering of a path adds quotation marks). -/
def host_warning (p : String) : String :=
  "Host \"" ++ p ++ "\" could not be resolved."

/-- The second loop of `parse_addresses`: each unresolved token is tried
as a file; a token that is not a file, or whose file fails to open,
produces one warning message. -/
def file_pass (env : DnsEnv) (fs : FsEnv) (resolver : Resolver) :
    List String → List IpAddr × List String
  | [] => ([], [])
  | p :: rest =>
    let t := file_pass env fs resolver rest
    if fs.isFile p then
      match read_ips_from_file env fs p resolver with
      | some x => (x ++ t.1, t.2)
      | none => (t.1, host_warning p :: t.2)
    else (t.1, host_warning p :: t.2)

/-- The final `retain` of `parse_addresses`:
`ips.retain(|ip| seen.insert(*ip) && !excluded.iter().any(|c| c.contains(ip)))`.
`seen` is the membership content of the `BTreeSet` (an address is
recorded as seen even when it is subsequently dropped as excluded). -/
def retain_dedup_exclude (excluded : List IpCidr) :
    List IpAddr → List IpAddr → List IpAddr
  | _, [] => []
  | seen, ip :: rest =>
    if ip ∈ seen then retain_dedup_exclude excluded seen rest
    else if excluded.any fun c => c.contains ip then
      retain_dedup_exclude excluded (ip :: seen) rest
    else ip :: retain_dedup_exclude excluded (ip :: seen) rest

/-- Modelled from the spec: `crate::input::Opts` is not among the given
sources; §6 lists the inputs this core consumes — an ordered list of
target tokens, an optional resolver source, an optional list of
exclusion specs, and opaque display-mode flags that are only forwarded
to the warning sink. -/
structure Opts where
  addresses : List String
  resolver : Option String := none
  exclude_addresses : Option (List String) := none
  greppable : Bool := false
  accessible : Bool := false

/-- Result of `parse_addresses`: the returned addresses plus the
messages handed to the warning sink, in emission order. -/
structure ParseOutcome where
  ips : List IpAddr
  warnings : List String
deriving DecidableEq

/-- `parse_addresses`: direct pass, file pass over the unresolved
tokens, exclusion parsing, then the dedup/exclusion `retain`.  `none`
models a panic inside `get_resolver`. -/
def parse_addresses (env : DnsEnv) (fs : FsEnv) (input : Opts) : Option ParseOutcome :=
  (get_resolver env fs input.resolver).map fun backup_resolver =>
    let d := direct_pass env backup_resolver input.addresses
    let f := file_pass env fs backup_resolver d.2
    let excluded_cidrs := parse_excluded_networks env input.exclude_addresses backup_resolver
    { ips := retain_dedup_exclude excluded_cidrs [] (d.1 ++ f.1), warnings := f.2 }

/-! ### Witness environments -/

/-- An inert environment: no DNS answer ever arrives, resolver
construction always succeeds, the system configuration is available. -/
def envW : DnsEnv where
  toSocketAddrs := fun _ => none
  toSocketAddrs_nonempty := by intro s l h; exact Option.noConfusion h
  lookupIp := fun _ _ => none
  resolverNewOk := fun _ => true
  systemConfOk := true

/-- An empty file system. -/
def fsW : FsEnv where
  isFile := fun _ => false
  openLines := fun _ => none
  readLines := fun _ => none

/-- An environment in which the OS lookup knows exactly one host,
`scanme.example`, with one address. -/
def envHost : DnsEnv where
  toSocketAddrs := fun s => if s = "scanme.example:80" then some [.v4 16909060] else none
  toSocketAddrs_nonempty := by
    intro s l h
    by_cases hq : s = "scanme.example:80" <;> simp [hq] at h
    simp [← h]
  lookupIp := fun _ _ => none
  resolverNewOk := fun _ => true
  systemConfOk := true

/-- An environment in which `Resolver::new` fails on every explicit
configuration but succeeds on the Cloudflare fallback. -/
def envBadNew : DnsEnv where
  toSocketAddrs := fun _ => none
  toSocketAddrs_nonempty := by intro s l h; exact Option.noConfusion h
  lookupIp := fun _ _ => none
  resolverNewOk := fun c =>
    match c with
    | .explicitList _ => false
    | .cloudflareTls => true
  systemConfOk := false

/-- A file system with a one-line target file `a.txt` whose line names
another target file `b.txt`; `b.txt` holds an IP literal. -/
def fsNested : FsEnv where
  isFile := fun p => p = "a.txt" || p = "b.txt"
  openLines := fun p =>
    if p = "a.txt" then some [some "b.txt"]
    else if p = "b.txt" then some [some "10.0.0.7"] else none
  readLines := fun _ => none

/-- As `fsNested` but with different contents in `b.txt`; the two file
systems agree on `a.txt`. -/
def fsNested2 : FsEnv where
  isFile := fun p => p = "a.txt" || p = "b.txt"
  openLines := fun p =>
    if p = "a.txt" then some [some "b.txt"]
    else if p = "b.txt" then some [some "192.168.9.9"] else none
  readLines := fun _ => none

/-- Concrete options for the C1 witness run: a duplicated literal token
and one CIDR exclusion. -/
def optsW : Opts :=
  { addresses := ["1.2.3.4", "1.2.3.4"], exclude_addresses := some ["5.5.5.0/24"] }

/-- Expected outcome of the C1 witness run. -/
def outW : ParseOutcome := { ips := [.v4 16909060], warnings := [] }

/-- The inet parsed from the non-canonical token `192.128.1.1/24`
(host bits set). -/
def inetW : IpInet := { fam := .v4, address := 3229614337, networkLength := 24 }

/-- The `/21` block of the overlapping-CIDR test: `79.98.104.0` is
already canonical for both lengths. -/
def cidr21 : IpCidr := { fam := .v4, address := 1331849216, networkLength := 21 }

/-- The `/24` block of the overlapping-CIDR test. -/
def cidr24 : IpCidr := { fam := .v4, address := 1331849216, networkLength := 24 }

/-- The 2048 addresses of `79.98.104.0/21`. -/
def block21 : List IpAddr := cidr21.addresses

/-! ### Character-consumption lemmas for the string parsers

These establish that a string accepted by `IpAddr::from_str` consists
only of digits and dots (v4) or hex digits, colons and dots (v6) — in
particular it never contains `'/'`, so a token of the form
`address/len` always falls through the literal-IP branch. -/

theorem readOctet_chars {cs : List Char} {n : Nat} {rest : List Char}
    (h : readOctet cs = some (n, rest)) :
    ∃ pre, cs = pre ++ rest ∧ ∀ c ∈ pre, c.isDigit := by
  simp only [readOctet] at h
  split at h
  · exact Option.noConfusion h
  · split at h
    · exact Option.noConfusion h
    · split at h
      · exact Option.noConfusion h
      · split at h
        · exact Option.noConfusion h
        · obtain ⟨h1, h2⟩ := by simpa using h
          refine ⟨cs.takeWhile Char.isDigit, ?_, ?_⟩
          · rw [← h2]; exact (List.takeWhile_append_dropWhile _ _).symm
          · intro c hc; exact List.mem_takeWhile_imp hc

theorem readDotOctet_chars {cs : List Char} {n : Nat} {rest : List Char}
    (h : readDotOctet cs = some (n, rest)) :
    ∃ pre, cs = pre ++ rest ∧ ∀ c ∈ pre, c.isDigit ∨ c = '.' := by
  unfold readDotOctet at h
  split at h
  next cs' =>
    obtain ⟨pre, hpre, hd⟩ := readOctet_chars h
    refine ⟨'.' :: pre, by simp [hpre], ?_⟩
    intro c hc
    rcases List.mem_cons.mp hc with hc | hc
    · exact Or.inr hc
    · exact Or.inl (hd c hc)
  next => exact Option.noConfusion h

theorem readIpv4_chars {cs : List Char} {v : Nat} {rest : List Char}
    (h : readIpv4 cs = some (v, rest)) :
    ∃ pre, cs = pre ++ rest ∧ ∀ c ∈ pre, c.isDigit ∨ c = '.' := by
  unfold readIpv4 at h
  cases e1 : readOctet cs with
  | none => rw [e1] at h; exact Option.noConfusion h
  | some p1 =>
    rw [e1] at h; rw [Option.some_bind] at h
    cases e2 : readDotOctet p1.2 with
    | none => rw [e2] at h; exact Option.noConfusion h
    | some p2 =>
      rw [e2] at h; rw [Option.some_bind] at h
      cases e3 : readDotOctet p2.2 with
      | none => rw [e3] at h; exact Option.noConfusion h
      | some p3 =>
        rw [e3] at h; rw [Option.some_bind] at h
        cases e4 : readDotOctet p3.2 with
        | none => rw [e4] at h; exact Option.noConfusion h
        | some p4 =>
          rw [e4] at h
          obtain ⟨q1, hq1, hd1⟩ := readOctet_chars e1
          obtain ⟨q2, hq2, hd2⟩ := readDotOctet_chars e2
          obtain ⟨q3, hq3, hd3⟩ := readDotOctet_chars e3
          obtain ⟨q4, hq4, hd4⟩ := readDotOctet_chars e4
          have hrest : rest = p4.2 := by simpa using congrArg (·.map Prod.snd) h.symm
          refine ⟨q1 ++ (q2 ++ (q3 ++ q4)), ?_, ?_⟩
          · rw [hq1, hq2, hq3, hq4, hrest]; simp
          · intro c hc
            simp only [List.mem_append] at hc
            rcases hc with hc | hc | hc | hc
            · exact Or.inl (hd1 c hc)
            · exact hd2 c hc
            · exact hd3 c hc
            · exact hd4 c hc

theorem readGroup_chars {cs : List Char} {n : Nat} {rest : List Char}
    (h : readGroup cs = some (n, rest)) :
    ∃ pre, cs = pre ++ rest ∧ ∀ c ∈ pre, isHexDigitChar c := by
  simp only [readGroup] at h
  split at h
  · exact Option.noConfusion h
  · split at h
    · exact Option.noConfusion h
    · obtain ⟨h1, h2⟩ := by simpa using h
      refine ⟨cs.takeWhile isHexDigitChar, ?_, ?_⟩
      · rw [← h2]; exact (List.takeWhile_append_dropWhile _ _).symm
      · intro c hc; exact List.mem_takeWhile_imp hc

theorem readSepB_chars {P : Char → Prop} {b : Bool} {cs : List Char}
    {inner : List Char → Option (Nat × List Char)} {v : Nat} {rest : List Char}
    (hinner : ∀ cs' v' rest', inner cs' = some (v', rest') →
      ∃ pre, cs' = pre ++ rest' ∧ ∀ c ∈ pre, P c)
    (hcolon : P ':') (h : readSepB b cs inner = some (v, rest)) :
    ∃ pre, cs = pre ++ rest ∧ ∀ c ∈ pre, P c := by
  unfold readSepB at h
  split at h
  · split at h
    next cs' =>
      obtain ⟨pre, hpre, hP⟩ := hinner _ _ _ h
      refine ⟨':' :: pre, by simp [hpre], ?_⟩
      intro c hc
      rcases List.mem_cons.mp hc with hc | hc
      · exact hc ▸ hcolon
      · exact hP c hc
    next => exact Option.noConfusion h
  · exact hinner _ _ _ h

/-- Auxiliary predicate: the characters an IPv6 parse may consume. -/
def v6Char (c : Char) : Prop := isHexDigitChar c ∨ c = ':' ∨ c = '.'

theorem readGroups_chars (rem : Nat) :
    ∀ (b : Bool) (cs : List Char),
      ∃ pre, cs = pre ++ (readGroups rem b cs).2.2 ∧ ∀ c ∈ pre, v6Char c := by
  induction rem with
  | zero => intro b cs; exact ⟨[], rfl, by simp⟩
  | succ rem' ih =>
    intro b cs
    simp only [readGroups]
    split
    next v4 rest heq =>
      split at heq
      · obtain ⟨pre, hpre, hP⟩ := readSepB_chars (P := v6Char)
          (fun cs' v' rest' h' => by
            obtain ⟨pre, hpre, hd⟩ := readIpv4_chars h'
            exact ⟨pre, hpre, fun c hc => by
              rcases hd c hc with hd' | hd'
              · exact Or.inl (by simp [isHexDigitChar, hd'])
              · exact Or.inr (Or.inr hd')⟩)
          (Or.inr (Or.inl rfl)) heq
        exact ⟨pre, hpre, hP⟩
      · exact Option.noConfusion heq
    next hne =>
      split
      next g rest heq =>
        obtain ⟨pre1, hpre1, hP1⟩ := readSepB_chars (P := v6Char)
          (fun cs' v' rest' h' => by
            obtain ⟨pre, hpre, hd⟩ := readGroup_chars h'
            exact ⟨pre, hpre, fun c hc => Or.inl (hd c hc)⟩)
          (Or.inr (Or.inl rfl)) heq
        obtain ⟨pre2, hpre2, hP2⟩ := ih true rest
        dsimp only
        generalize hX : (readGroups rem' true rest).2.2 = X at hpre2 ⊢
        refine ⟨pre1 ++ pre2, ?_, ?_⟩
        · rw [List.append_assoc, ← hpre2]; exact hpre1
        · intro c hc
          rcases List.mem_append.mp hc with hc | hc
          · exact hP1 c hc
          · exact hP2 c hc
      next => exact ⟨[], rfl, by simp⟩

theorem readIpv6_chars {cs : List Char} {v : Nat} {rest : List Char}
    (h : readIpv6 cs = some (v, rest)) :
    ∃ pre, cs = pre ++ rest ∧ ∀ c ∈ pre, v6Char c := by
  simp only [readIpv6] at h
  obtain ⟨pre1, hpre1, hP1⟩ := readGroups_chars 8 false cs
  split at h
  · obtain ⟨h1, h2⟩ := by simpa using h
    exact ⟨pre1, by rw [hpre1, h2], hP1⟩
  · split at h
    · exact Option.noConfusion h
    · split at h
      next r2 heq =>
        obtain ⟨pre2, hpre2, hP2⟩ :=
          readGroups_chars (8 - ((readGroups 8 false cs).1.length + 1)) false r2
        generalize hX : (readGroups (8 - ((readGroups 8 false cs).1.length + 1)) false r2).2.2 = X
          at hpre2 h
        have h2 : X = rest := congrArg Prod.snd (Option.some.inj h)
        refine ⟨pre1 ++ (':' :: ':' :: pre2), ?_, ?_⟩
        · rw [← h2, List.append_assoc]
          show cs = pre1 ++ (':' :: ':' :: (pre2 ++ X))
          rw [← hpre2, ← heq]
          exact hpre1
        · intro c hc
          rcases List.mem_append.mp hc with hc | hc
          · exact hP1 c hc
          · rcases List.mem_cons.mp hc with hc | hc
            · exact Or.inr (Or.inl hc)
            · rcases List.mem_cons.mp hc with hc | hc
              · exact Or.inr (Or.inl hc)
              · exact hP2 c hc
      next => exact Option.noConfusion h

theorem parseIpv4_chars {s : String} {v : Nat} (h : parseIpv4 s = some v) :
    ∀ c ∈ s.data, c.isDigit ∨ c = '.' := by
  unfold parseIpv4 at h
  split at h
  next v' heq =>
    obtain ⟨pre, hpre, hd⟩ := readIpv4_chars heq
    intro c hc
    rw [hpre] at hc
    simp only [List.append_nil] at hc
    exact hd c hc
  next => exact Option.noConfusion h

theorem parseIpv6_chars {s : String} {v : Nat} (h : parseIpv6 s = some v) :
    ∀ c ∈ s.data, v6Char c := by
  unfold parseIpv6 at h
  split at h
  next v' heq =>
    obtain ⟨pre, hpre, hd⟩ := readIpv6_chars heq
    intro c hc
    rw [hpre] at hc
    simp only [List.append_nil] at hc
    exact hd c hc
  next => exact Option.noConfusion h

/-- A string accepted by `IpAddr::from_str` contains no `'/'`. -/
theorem from_str_no_slash {s : String} {a : IpAddr} (h : IpAddr.from_str s = some a) :
    '/' ∉ s.data := by
  intro hsl
  unfold IpAddr.from_str at h
  split at h
  next v heq => exact absurd (parseIpv4_chars heq '/' hsl) (by decide)
  next heq =>
    cases e : parseIpv6 s with
    | none => rw [e] at h; exact Option.noConfusion h
    | some v => exact absurd (parseIpv6_chars e '/' hsl) (by unfold v6Char; decide)

/-! ### Branch lemmas for `parse_address` -/

theorem parse_address_ip {env : DnsEnv} {s : String} {r : Resolver} {a : IpAddr}
    (h : IpAddr.from_str s = some a) : parse_address env s r = [a] := by
  simp [parse_address, h]

theorem parse_address_cidr {env : DnsEnv} {s : String} {r : Resolver} {i : IpInet}
    (h4 : IpAddr.from_str s = none) (h6 : IpInet.from_str s = some i) :
    parse_address env s r = i.network.addresses := by
  simp [parse_address, h4, h6]

theorem parse_address_sock {env : DnsEnv} {s : String} {r : Resolver} {a : IpAddr}
    {l : List IpAddr} (h4 : IpAddr.from_str s = none) (h6 : IpInet.from_str s = none)
    (hs : env.toSocketAddrs (s ++ ":80") = some (a :: l)) : parse_address env s r = [a] := by
  simp only [parse_address, h4, h6]
  split
  next l' heq => rw [hs] at heq; cases Option.some.inj heq; rfl
  next heq => rw [hs] at heq; exact Option.noConfusion heq

theorem parse_address_nosock {env : DnsEnv} {s : String} {r : Resolver}
    (h4 : IpAddr.from_str s = none) (h6 : IpInet.from_str s = none)
    (hs : env.toSocketAddrs (s ++ ":80") = none) :
    parse_address env s r = resolve_ips_from_host env s r := by
  simp only [parse_address, h4, h6]
  split
  next l' heq => rw [hs] at heq; exact Option.noConfusion heq
  next heq => rfl

/-- A token containing a `'/'` never parses as a literal IP, so if it
parses as an inet it reaches the CIDR branch. -/
theorem from_str_of_slash {s : String} (hsl : '/' ∈ s.data) : IpAddr.from_str s = none := by
  cases h : IpAddr.from_str s with
  | none => rfl
  | some a => exact absurd hsl (from_str_no_slash h)

/-! ### Properties of the CIDR expansion -/

theorem val_ofFam (f : IpFam) (n : Nat) : (IpAddr.ofFam f n).val = n := by
  cases f <;> rfl

theorem fam_ofFam (f : IpFam) (n : Nat) : (IpAddr.ofFam f n).fam = f := by
  cases f <;> rfl

theorem ofFam_inj {f : IpFam} {a b : Nat} (h : IpAddr.ofFam f a = IpAddr.ofFam f b) : a = b := by
  cases f <;> exact congrArg IpAddr.val h

theorem addresses_length (c : IpCidr) :
    c.addresses.length = 2 ^ (c.fam.bits - c.networkLength) := by
  simp [IpCidr.addresses]

theorem addresses_sorted (c : IpCidr) :
    c.addresses.Pairwise fun a b => a.val < b.val := by
  unfold IpCidr.addresses
  rw [List.pairwise_map]
  exact (List.pairwise_lt_range _).imp fun h => by
    simp only [val_ofFam]
    exact Nat.add_lt_add_left h _

theorem addresses_nodup (c : IpCidr) : c.addresses.Nodup := by
  unfold IpCidr.addresses
  exact (List.nodup_range _).map fun a b h =>
    Nat.add_left_cancel (ofFam_inj h)

theorem network_mem_addresses (c : IpCidr) :
    IpAddr.ofFam c.fam c.address ∈ c.addresses := by
  unfold IpCidr.addresses
  refine List.mem_map.mpr ⟨0, ?_, by rw [Nat.add_zero]⟩
  exact List.mem_range.mpr (Nat.pos_pow_of_pos _ (by decide))

theorem broadcast_mem_addresses (c : IpCidr) :
    IpAddr.ofFam c.fam (c.address + (2 ^ (c.fam.bits - c.networkLength) - 1)) ∈ c.addresses := by
  unfold IpCidr.addresses
  refine List.mem_map.mpr ⟨2 ^ (c.fam.bits - c.networkLength) - 1, ?_, rfl⟩
  exact List.mem_range.mpr (Nat.sub_lt (Nat.pos_pow_of_pos _ (by decide)) (by decide))

/-! ### Properties of the final `retain` pass -/

theorem retain_nodup_fresh (excluded : List IpCidr) :
    ∀ (l seen : List IpAddr),
      (retain_dedup_exclude excluded seen l).Nodup ∧
        ∀ x ∈ retain_dedup_exclude excluded seen l, x ∉ seen := by
  intro l
  induction l with
  | nil => intro seen; simp [retain_dedup_exclude]
  | cons ip rest ih =>
    intro seen
    unfold retain_dedup_exclude
    split
    · exact ⟨(ih seen).1, fun x hx => (ih seen).2 x hx⟩
    · split
      · refine ⟨(ih (ip :: seen)).1, fun x hx => ?_⟩
        have := (ih (ip :: seen)).2 x hx
        intro hxs
        exact this (List.mem_cons_of_mem _ hxs)
      · constructor
        · refine List.nodup_cons.mpr ⟨?_, (ih (ip :: seen)).1⟩
          intro hmem
          exact (ih (ip :: seen)).2 ip hmem (List.mem_cons_self _ _)
        · intro x hx
          rcases List.mem_cons.mp hx with hx | hx
          · subst hx; assumption
          · intro hxs
            exact (ih (ip :: seen)).2 x hx (List.mem_cons_of_mem _ hxs)

theorem retain_not_excluded (excluded : List IpCidr) :
    ∀ (l seen : List IpAddr) (x : IpAddr), x ∈ retain_dedup_exclude excluded seen l →
      (excluded.any fun c => c.contains x) = false := by
  intro l
  induction l with
  | nil => intro seen x hx; simp [retain_dedup_exclude] at hx
  | cons ip rest ih =>
    intro seen x hx
    unfold retain_dedup_exclude at hx
    split at hx
    · exact ih seen x hx
    · split at hx
      · exact ih (ip :: seen) x hx
      · rcases List.mem_cons.mp hx with hx | hx
        · subst hx
          next hexc => exact Bool.of_not_eq_true hexc
        · exact ih (ip :: seen) x hx

theorem retain_sublist (excluded : List IpCidr) :
    ∀ (l seen : List IpAddr), (retain_dedup_exclude excluded seen l).Sublist l := by
  intro l
  induction l with
  | nil => intro seen; simp [retain_dedup_exclude]
  | cons ip rest ih =>
    intro seen
    unfold retain_dedup_exclude
    split
    · exact (ih seen).cons ip
    · split
      · exact (ih (ip :: seen)).cons ip
      · exact (ih (ip :: seen)).cons₂ ip

theorem retain_all_seen (excluded : List IpCidr) :
    ∀ (l seen : List IpAddr), (∀ x ∈ l, x ∈ seen) →
      retain_dedup_exclude excluded seen l = [] := by
  intro l
  induction l with
  | nil => intro seen _; rfl
  | cons ip rest ih =>
    intro seen hall
    unfold retain_dedup_exclude
    rw [if_pos (hall ip (List.mem_cons_self _ _))]
    exact ih seen fun x hx => hall x (List.mem_cons_of_mem _ hx)

/-- With no exclusions, a block of fresh, duplicate-free addresses
followed by addresses already contained in it survives the retain pass
as exactly the block. -/
theorem retain_fresh_append (xs : List IpAddr) :
    ∀ (ys seen : List IpAddr), xs.Nodup → (∀ x ∈ xs, x ∉ seen) →
      (∀ y ∈ ys, y ∈ xs ∨ y ∈ seen) →
      retain_dedup_exclude [] seen (xs ++ ys) = xs := by
  induction xs with
  | nil =>
    intro ys seen _ _ hys
    refine retain_all_seen [] ys seen fun y hy => ?_
    rcases hys y hy with hy' | hy'
    · exact absurd hy' (List.not_mem_nil y)
    · exact hy'
  | cons x xs ih =>
    intro ys seen hnd hfresh hys
    rw [List.cons_append]
    unfold retain_dedup_exclude
    rw [if_neg (hfresh x (List.mem_cons_self _ _))]
    simp only [List.any_nil]
    refine congrArg (x :: ·) (ih ys (x :: seen) (List.nodup_cons.mp hnd).2 ?_ ?_)
    · intro x' hx'
      intro hmem
      rcases List.mem_cons.mp hmem with hx | hx
      · exact (List.nodup_cons.mp hnd).1 (hx ▸ hx')
      · exact hfresh x' (List.mem_cons_of_mem _ hx') hx
    · intro y hy
      rcases hys y hy with hy' | hy'
      · rcases List.mem_cons.mp hy' with hy'' | hy''
        · exact Or.inr (List.mem_cons.mpr (Or.inl hy''))
        · exact Or.inl hy''
      · exact Or.inr (List.mem_cons_of_mem _ hy')

/-! ### Properties of the file loader and the two passes -/

theorem read_ips_lines_flatMap (env : DnsEnv) (r : Resolver) :
    ∀ lines : List (Option String),
      read_ips_lines env r lines =
        (lines.filterMap id).flatMap fun line => parse_address env line r := by
  intro lines
  induction lines with
  | nil => rfl
  | cons o rest ih =>
    cases o with
    | some address => simp [read_ips_lines, ih]
    | none => simp [read_ips_lines, ih]

theorem read_ips_lines_drop_failing (env : DnsEnv) (r : Resolver) {bad : String}
    (hbad : parse_address env bad r = []) (pre post : List (Option String)) :
    read_ips_lines env r (pre ++ some bad :: post) = read_ips_lines env r (pre ++ post) := by
  induction pre with
  | nil => simp [read_ips_lines, hbad]
  | cons o rest ih =>
    cases o with
    | some address => simp [read_ips_lines, ih]
    | none => simp [read_ips_lines, ih]

theorem read_ips_lines_drop_errored (env : DnsEnv) (r : Resolver)
    (pre post : List (Option String)) :
    read_ips_lines env r (pre ++ none :: post) = read_ips_lines env r (pre ++ post) := by
  induction pre with
  | nil => simp [read_ips_lines]
  | cons o rest ih =>
    cases o with
    | some address => simp [read_ips_lines, ih]
    | none => simp [read_ips_lines, ih]

theorem file_pass_warnings (env : DnsEnv) (fs : FsEnv) (r : Resolver) :
    ∀ toks : List String,
      (file_pass env fs r toks).2 =
        (toks.filter fun t => !fs.isFile t || (fs.openLines t).isNone).map host_warning := by
  intro toks
  induction toks with
  | nil => rfl
  | cons p rest ih =>
    by_cases hf : fs.isFile p
    · cases ho : fs.openLines p with
      | some lines =>
        have : read_ips_from_file env fs p r = some (read_ips_lines env r lines) := by
          simp [read_ips_from_file, ho]
        simp [file_pass, hf, this, List.filter_cons, ho, ih]
      | none =>
        have : read_ips_from_file env fs p r = none := by
          simp [read_ips_from_file, ho]
        simp [file_pass, hf, this, List.filter_cons, ho, ih]
    · simp [file_pass, hf, List.filter_cons, ih]

/-! ### Claim theorems -/

/-- C1: for every input, the final result of `parse_addresses` contains
no duplicate address, contains no address contained in any exclusion
entry, and is a sublist of the direct-pass results followed by the
file-pass results — so kept addresses appear in encounter order, with
direct-token results (in original token order) preceding file-derived
results (in file-then-line order). -/
theorem parse_addresses_invariants (env : DnsEnv) (fs : FsEnv) (input : Opts) (r : Resolver)
    (out : ParseOutcome) (hr : get_resolver env fs input.resolver = some r)
    (hout : parse_addresses env fs input = some out) :
    out.ips.Nodup ∧
    (∀ ip ∈ out.ips, ∀ c ∈ parse_excluded_networks env input.exclude_addresses r,
      c.contains ip = false) ∧
    out.ips.Sublist
      ((direct_pass env r input.addresses).1 ++
        (file_pass env fs r (direct_pass env r input.addresses).2).1) := by
  unfold parse_addresses at hout
  rw [hr] at hout
  have hout' := Option.some.inj hout
  subst hout'
  refine ⟨(retain_nodup_fresh _ _ _).1, ?_, retain_sublist _ _ _⟩
  intro ip hip c hc
  have h := retain_not_excluded _ _ _ ip hip
  rw [List.any_eq_false] at h
  simpa using h c hc

/-- Witness for C1: a concrete run with a duplicated token and an
exclusion, at an inert environment. -/
theorem parse_addresses_invariants_witness :
    outW.ips.Nodup ∧
    (∀ ip ∈ outW.ips,
      ∀ c ∈ parse_excluded_networks envW optsW.exclude_addresses Resolver.system,
        c.contains ip = false) ∧
    outW.ips.Sublist
      ((direct_pass envW Resolver.system optsW.addresses).1 ++
        (file_pass envW fsW Resolver.system
          (direct_pass envW Resolver.system optsW.addresses).2).1) :=
  parse_addresses_invariants envW fsW optsW .system outW (by decide) (by decide)

/-- C2: a token that parses as `address/len` is expanded by the
classifier to exactly `2^(bits-len)` addresses in ascending numeric
order; the block is the token's address truncated to `len` bits (so a
non-canonical literal yields its surrounding block, not an error), and
both the network address and the broadcast address are included. -/
theorem cidr_expansion_exact (env : DnsEnv) (r : Resolver) (s : String) (i : IpInet)
    (hsl : '/' ∈ s.data) (hp : IpInet.from_str s = some i) :
    parse_address env s r = i.network.addresses ∧
    (parse_address env s r).length = 2 ^ (i.fam.bits - i.networkLength) ∧
    (parse_address env s r).Pairwise (fun a b => a.val < b.val) ∧
    i.network.address =
      i.address / 2 ^ (i.fam.bits - i.networkLength) * 2 ^ (i.fam.bits - i.networkLength) ∧
    IpAddr.ofFam i.fam i.network.address ∈ parse_address env s r ∧
    IpAddr.ofFam i.fam (i.network.address + (2 ^ (i.fam.bits - i.networkLength) - 1)) ∈
      parse_address env s r := by
  have h4 := from_str_of_slash hsl
  have he : parse_address env s r = i.network.addresses := parse_address_cidr h4 hp
  rw [he]
  exact ⟨rfl, addresses_length i.network, addresses_sorted i.network, rfl,
    network_mem_addresses i.network, broadcast_mem_addresses i.network⟩

/-- Witness for C2: the non-canonical token `192.128.1.1/24` expands to
the 256 addresses of its surrounding block. -/
theorem cidr_expansion_exact_witness :
    parse_address envW "192.128.1.1/24" Resolver.system = inetW.network.addresses ∧
    (parse_address envW "192.128.1.1/24" Resolver.system).length =
      2 ^ (inetW.fam.bits - inetW.networkLength) ∧
    (parse_address envW "192.128.1.1/24" Resolver.system).Pairwise
      (fun a b => a.val < b.val) ∧
    inetW.network.address =
      inetW.address / 2 ^ (inetW.fam.bits - inetW.networkLength) *
        2 ^ (inetW.fam.bits - inetW.networkLength) ∧
    IpAddr.ofFam inetW.fam inetW.network.address ∈
      parse_address envW "192.128.1.1/24" Resolver.system ∧
    IpAddr.ofFam inetW.fam
        (inetW.network.address + (2 ^ (inetW.fam.bits - inetW.networkLength) - 1)) ∈
      parse_address envW "192.128.1.1/24" Resolver.system :=
  cidr_expansion_exact envW .system "192.128.1.1/24" inetW (by decide) (by decide)

/-- C3: for a hostname token (neither IP nor CIDR), resolution never
escapes its boundary: when the OS-level lookup of `host:80` succeeds its
first address is the single result, and when every lookup fails the
result is the empty sequence. -/
theorem hostname_resolution_boundary (env : DnsEnv) (r : Resolver) (s : String) (a : IpAddr)
    (l : List IpAddr) (h4 : IpAddr.from_str s = none) (h6 : IpInet.from_str s = none) :
    (env.toSocketAddrs (s ++ ":80") = some (a :: l) → parse_address env s r = [a]) ∧
    (env.toSocketAddrs (s ++ ":80") = none → env.toSocketAddrs s = none →
      env.lookupIp r s = none → parse_address env s r = []) := by
  constructor
  · intro hs
    exact parse_address_sock h4 h6 hs
  · intro hs h1 h2
    rw [parse_address_nosock h4 h6 hs]
    simp [resolve_ips_from_host, h1, h2]

/-- Witness for C3: `scanme.example` resolves through the OS lookup to
its single address. -/
theorem hostname_resolution_boundary_witness :
    (envHost.toSocketAddrs ("scanme.example" ++ ":80") = some (IpAddr.v4 16909060 :: []) →
      parse_address envHost "scanme.example" Resolver.system = [.v4 16909060]) ∧
    (envHost.toSocketAddrs ("scanme.example" ++ ":80") = none →
      envHost.toSocketAddrs "scanme.example" = none →
      envHost.lookupIp Resolver.system "scanme.example" = none →
      parse_address envHost "scanme.example" Resolver.system = []) :=
  hostname_resolution_boundary envHost .system "scanme.example" (.v4 16909060) []
    (by decide) (by decide)

/-- C4 counterexample: an environment whose final-fallback (Cloudflare)
construction would succeed, yet `get_resolver` with an explicit source
is fatal anyway, because the `Some` branch also ends in
`Resolver::new(config, ..).unwrap()` and that construction fails — the
final fallback path is not the only fatal one. -/
theorem get_resolver_fatal_counterexample :
    envBadNew.resolverNewOk .cloudflareTls = true ∧
    get_resolver envBadNew fsW (some "8.8.8.8") = none := by decide

/-- C4 (amended): a construction failure of either `Resolver::new` call
— the custom-config build on the explicit-source path just as much as
the fixed public fallback — is fatal; the source handling itself
degrades gracefully: with a source that is not a readable file the
source is split on commas and each token parsed as an IP literal with
failures skipped, and an entirely-unparsable source yields a
configuration with zero custom nameservers rather than an error. -/
theorem get_resolver_degradation (env : DnsEnv) (fs : FsEnv) (r : String) :
    ((get_resolver env fs (some r)).isSome ↔
      env.resolverNewOk (custom_config (resolver_ips_from_source fs r)) = true) ∧
    (env.systemConfOk = false →
      ((get_resolver env fs none).isSome ↔ env.resolverNewOk .cloudflareTls = true)) ∧
    (fs.readLines r = none →
      resolver_ips_from_source fs r =
        (splitComma r.data).filterMap fun t => IpAddr.from_str (String.mk t)) ∧
    (fs.readLines r = none →
      (∀ t ∈ splitComma r.data, IpAddr.from_str (String.mk t) = none) →
      custom_config (resolver_ips_from_source fs r) = .explicitList []) := by
  have hsrc : fs.readLines r = none →
      resolver_ips_from_source fs r =
        (splitComma r.data).filterMap fun t => IpAddr.from_str (String.mk t) := by
    intro hread
    unfold resolver_ips_from_source read_resolver_from_file
    rw [hread]
    rfl
  refine ⟨?_, ?_, hsrc, ?_⟩
  · unfold get_resolver
    cases hn : env.resolverNewOk (custom_config (resolver_ips_from_source fs r)) <;> simp [hn]
  · intro hsys
    unfold get_resolver
    cases hn : env.resolverNewOk .cloudflareTls <;> simp [hsys, hn]
  · intro hread hall
    rw [hsrc hread]
    unfold custom_config
    rw [List.filterMap_eq_nil_iff.mpr hall]
    rfl

/-- Witness for the amended C4: with the source `"nope"` (no file, no
parsable token) the build is fatal exactly when the custom construction
fails, and the derived configuration has zero nameservers. -/
theorem get_resolver_degradation_witness :
    ((get_resolver envBadNew fsW (some "nope")).isSome ↔
      envBadNew.resolverNewOk (custom_config (resolver_ips_from_source fsW "nope")) = true) ∧
    custom_config (resolver_ips_from_source fsW "nope") = .explicitList [] :=
  ⟨(get_resolver_degradation envBadNew fsW "nope").1,
   (get_resolver_degradation envBadNew fsW "nope").2.2.2 (by decide) (by decide)⟩

/-- C5: the file loader as a whole fails (producing the single
whole-file warning) exactly when the I/O-level open fails; a line that
fails to classify, or whose read errors, contributes nothing to the
file's result; and the warnings of the file pass are exactly one
whole-token message per token that is not a file or whose open failed —
no per-line warning exists. -/
theorem file_loader_failure_modes (env : DnsEnv) (fs : FsEnv) (r : Resolver) (p : String)
    (bad : String) (pre post : List (Option String)) (toks : List String) :
    ((read_ips_from_file env fs p r).isSome ↔ (fs.openLines p).isSome) ∧
    (parse_address env bad r = [] →
      read_ips_lines env r (pre ++ some bad :: post) = read_ips_lines env r (pre ++ post)) ∧
    (read_ips_lines env r (pre ++ none :: post) = read_ips_lines env r (pre ++ post)) ∧
    ((file_pass env fs r toks).2 =
      (toks.filter fun t => !fs.isFile t || (fs.openLines t).isNone).map host_warning) := by
  refine ⟨?_, ?_, read_ips_lines_drop_errored env r pre post, file_pass_warnings env fs r toks⟩
  · unfold read_ips_from_file
    cases fs.openLines p <;> simp
  · intro hbad
    exact read_ips_lines_drop_failing env r hbad pre post

/-- Witness for C5: a missing file fails to load, and an unclassifiable
line contributes nothing. -/
theorem file_loader_failure_modes_witness :
    ((read_ips_from_file envW fsW "gone.txt" Resolver.system).isSome ↔
      (fsW.openLines "gone.txt").isSome) ∧
    read_ips_lines envW Resolver.system ([some "1.2.3.4"] ++ some "im_wrong" :: []) =
      read_ips_lines envW Resolver.system ([some "1.2.3.4"] ++ []) :=
  ⟨(file_loader_failure_modes envW fsW .system "gone.txt" "im_wrong" [] [] []).1,
   (file_loader_failure_modes envW fsW .system "gone.txt" "im_wrong"
      [some "1.2.3.4"] [] []).2.1 (by decide)⟩

/-- C6: every readable line of a target file is run through the full
token classifier, and a line is never itself treated as another file
path: the loader's output depends only on the opened file's own lines
(it is identical across file systems that agree there), and each line is
processed by `parse_address`, which reads no files at all. -/
theorem file_lines_full_classifier_single_level (env : DnsEnv) (fs fs2 : FsEnv) (r : Resolver)
    (p : String) (hagree : fs.openLines p = fs2.openLines p) :
    read_ips_from_file env fs p r = read_ips_from_file env fs2 p r ∧
    read_ips_from_file env fs p r =
      (fs.openLines p).map fun ls =>
        (ls.filterMap id).flatMap fun line => parse_address env line r := by
  constructor
  · unfold read_ips_from_file
    rw [hagree]
  · unfold read_ips_from_file
    cases fs.openLines p with
    | none => rfl
    | some ls => simp [read_ips_lines_flatMap]

/-- Witness for C6: `a.txt` holds the line `b.txt`, which names an
existing readable file holding a literal IP; the loader still yields
nothing for it (the line is classified, never opened as a file), and the
result is unchanged when `b.txt`'s contents differ. -/
theorem file_lines_full_classifier_single_level_witness :
    read_ips_from_file envW fsNested "a.txt" Resolver.system =
      read_ips_from_file envW fsNested2 "a.txt" Resolver.system ∧
    read_ips_from_file envW fsNested "a.txt" Resolver.system = some [] :=
  ⟨(file_lines_full_classifier_single_level envW fsNested fsNested2 .system "a.txt"
      (by decide)).1,
   by decide⟩

/-- A CIDR expansion is never empty. -/
theorem addresses_ne_empty (c : IpCidr) : c.addresses.isEmpty = false := by
  cases h : c.addresses with
  | nil =>
    have h1 := addresses_length c
    rw [h] at h1
    have h2 := Nat.pos_pow_of_pos (c.fam.bits - c.networkLength) (show 0 < 2 by decide)
    simp at h1
    omega
  | cons a l => rfl

/-- A block with the same base address and a smaller host-bit width is
contained in the wider block's expansion. -/
theorem addresses_subset_of_le {c d : IpCidr} (hfam : d.fam = c.fam)
    (haddr : d.address = c.address)
    (hlen : d.fam.bits - d.networkLength ≤ c.fam.bits - c.networkLength) :
    ∀ y ∈ d.addresses, y ∈ c.addresses := by
  intro y hy
  unfold IpCidr.addresses at hy ⊢
  obtain ⟨i, hi, rfl⟩ := List.mem_map.mp hy
  rw [List.mem_range] at hi
  refine List.mem_map.mpr ⟨i, List.mem_range.mpr ?_, ?_⟩
  · exact lt_of_lt_of_le hi (Nat.pow_le_pow_right (by decide) hlen)
  · rw [hfam, haddr]

/-- C7: each exclusion spec is attempted in order — CIDR parse, then
single-IP parse, then hostname resolution (one host entry per resolved
address) — with the first success winning, and a spec that fails all
three contributes nothing and surfaces no error. -/
theorem exclusion_spec_precedence (env : DnsEnv) (r : Resolver) (a : String) (c : IpCidr)
    (ip : IpAddr) (bad : String) (pre post : List String) :
    (IpCidr.from_str a = some c → parse_single_excluded_address env a r = [c]) ∧
    (IpCidr.from_str a = none → IpAddr.from_str a = some ip →
      parse_single_excluded_address env a r = [IpCidr.new_host ip]) ∧
    (IpCidr.from_str a = none → IpAddr.from_str a = none →
      parse_single_excluded_address env a r =
        (resolve_ips_from_host env a r).map IpCidr.new_host) ∧
    (parse_single_excluded_address env bad r = [] →
      parse_excluded_networks env (some (pre ++ bad :: post)) r =
        parse_excluded_networks env (some (pre ++ post)) r) := by
  refine ⟨?_, ?_, ?_, ?_⟩
  · intro h1
    simp [parse_single_excluded_address, h1]
  · intro h1 h2
    simp [parse_single_excluded_address, h1, h2]
  · intro h1 h2
    simp [parse_single_excluded_address, h1, h2]
  · intro hbad
    simp [parse_excluded_networks, hbad]

/-- Witness for C7: a CIDR spec wins immediately; a spec failing all
three attempts is dropped without affecting the others. -/
theorem exclusion_spec_precedence_witness :
    parse_single_excluded_address envW "10.1.2.0/24" Resolver.system =
      [{ fam := .v4, address := 167838208, networkLength := 24 }] ∧
    parse_excluded_networks envW (some (["10.1.2.0/24"] ++ "im_wrong" :: []))
        Resolver.system =
      parse_excluded_networks envW (some (["10.1.2.0/24"] ++ [])) Resolver.system :=
  ⟨(exclusion_spec_precedence envW .system "10.1.2.0/24"
      { fam := .v4, address := 167838208, networkLength := 24 } (.v4 0) "im_wrong" [] []).1
      (by decide),
   (exclusion_spec_precedence envW .system "x" { fam := .v4, address := 0, networkLength := 0 }
      (.v4 0) "im_wrong" ["10.1.2.0/24"] []).2.2.2 (by decide)⟩

/-- C8: the mixed input `["127.0.0.1", "im_wrong"]` yields exactly
`[127.0.0.1]` with exactly one warning, and the all-invalid input
`["im_wrong", "300.10.1.1"]` yields the empty result with exactly two
warnings — in both cases a defined (non-panicking) outcome. -/
theorem mixed_and_invalid_inputs (env : DnsEnv) (fs : FsEnv)
    (h1 : env.toSocketAddrs "im_wrong:80" = none)
    (h2 : env.toSocketAddrs "im_wrong" = none)
    (h3 : ∀ q : Resolver, env.lookupIp q "im_wrong" = none)
    (h4 : fs.isFile "im_wrong" = false)
    (h5 : env.toSocketAddrs "300.10.1.1:80" = none)
    (h6 : env.toSocketAddrs "300.10.1.1" = none)
    (h7 : ∀ q : Resolver, env.lookupIp q "300.10.1.1" = none)
    (h8 : fs.isFile "300.10.1.1" = false)
    (h9 : env.systemConfOk = true) :
    parse_addresses env fs { addresses := ["127.0.0.1", "im_wrong"] } =
      some { ips := [.v4 2130706433], warnings := [host_warning "im_wrong"] } ∧
    parse_addresses env fs { addresses := ["im_wrong", "300.10.1.1"] } =
      some { ips := [], warnings := [host_warning "im_wrong", host_warning "300.10.1.1"] } := by
  have hres : get_resolver env fs none = some Resolver.system := by
    simp [get_resolver, h9]
  have hw1 : parse_address env "im_wrong" Resolver.system = [] := by
    rw [parse_address_nosock (by decide) (by decide) h1]
    simp [resolve_ips_from_host, h2, h3]
  have hw2 : parse_address env "300.10.1.1" Resolver.system = [] := by
    rw [parse_address_nosock (by decide) (by decide) h5]
    simp [resolve_ips_from_host, h6, h7]
  have hok : parse_address env "127.0.0.1" Resolver.system = [IpAddr.v4 2130706433] :=
    parse_address_ip (by decide)
  constructor
  · have hd1 : direct_pass env Resolver.system ["im_wrong"] = ([], ["im_wrong"]) := by
      unfold direct_pass
      rw [hw1]
      simp [direct_pass]
    have hd : direct_pass env Resolver.system ["127.0.0.1", "im_wrong"] =
        ([IpAddr.v4 2130706433], ["im_wrong"]) := by
      unfold direct_pass
      rw [hok, hd1]
      simp
    have hf : file_pass env fs Resolver.system ["im_wrong"] =
        ([], [host_warning "im_wrong"]) := by
      unfold file_pass
      rw [h4]
      simp [file_pass]
    unfold parse_addresses
    rw [hres]
    refine congrArg some ?_
    dsimp only
    rw [hd]
    dsimp only
    rw [hf]
    dsimp only [parse_excluded_networks]
    decide
  · have hd1 : direct_pass env Resolver.system ["300.10.1.1"] = ([], ["300.10.1.1"]) := by
      unfold direct_pass
      rw [hw2]
      simp [direct_pass]
    have hd : direct_pass env Resolver.system ["im_wrong", "300.10.1.1"] =
        ([], ["im_wrong", "300.10.1.1"]) := by
      unfold direct_pass
      rw [hw1, hd1]
      simp
    have hf1 : file_pass env fs Resolver.system ["300.10.1.1"] =
        ([], [host_warning "300.10.1.1"]) := by
      unfold file_pass
      rw [h8]
      simp [file_pass]
    have hf : file_pass env fs Resolver.system ["im_wrong", "300.10.1.1"] =
        ([], [host_warning "im_wrong", host_warning "300.10.1.1"]) := by
      unfold file_pass
      rw [h4, hf1]
      simp
    unfold parse_addresses
    rw [hres]
    refine congrArg some ?_
    dsimp only
    rw [hd]
    dsimp only
    rw [hf]
    dsimp only [parse_excluded_networks]
    decide

/-- Witness for C8 at the inert environment. -/
theorem mixed_and_invalid_inputs_witness :
    parse_addresses envW fsW { addresses := ["127.0.0.1", "im_wrong"] } =
      some { ips := [.v4 2130706433], warnings := [host_warning "im_wrong"] } ∧
    parse_addresses envW fsW { addresses := ["im_wrong", "300.10.1.1"] } =
      some { ips := [], warnings := [host_warning "im_wrong", host_warning "300.10.1.1"] } :=
  mixed_and_invalid_inputs envW fsW rfl rfl (fun _ => rfl) rfl rfl rfl (fun _ => rfl) rfl rfl

/-- C9: the overlapping CIDR tokens `79.98.104.0/21` and
`79.98.104.0/24` deduplicate to their set union: exactly the 2048
distinct addresses of the wider block. -/
theorem overlapping_cidrs_dedup (env : DnsEnv) (fs : FsEnv) (h9 : env.systemConfOk = true) :
    parse_addresses env fs { addresses := ["79.98.104.0/21", "79.98.104.0/24"] } =
      some { ips := block21, warnings := [] } ∧
    block21.length = 2048 ∧ block21.Nodup := by
  have hres : get_resolver env fs none = some Resolver.system := by
    simp [get_resolver, h9]
  have hn21 : ({ fam := .v4, address := 1331849216, networkLength := 21 } : IpInet).network
      = cidr21 := by decide
  have hn24 : ({ fam := .v4, address := 1331849216, networkLength := 24 } : IpInet).network
      = cidr24 := by decide
  have hp21 : parse_address env "79.98.104.0/21" Resolver.system = cidr21.addresses := by
    rw [parse_address_cidr (by decide)
      (by decide :
        IpInet.from_str "79.98.104.0/21" =
          some { fam := .v4, address := 1331849216, networkLength := 21 }), hn21]
  have hp24 : parse_address env "79.98.104.0/24" Resolver.system = cidr24.addresses := by
    rw [parse_address_cidr (by decide)
      (by decide :
        IpInet.from_str "79.98.104.0/24" =
          some { fam := .v4, address := 1331849216, networkLength := 24 }), hn24]
  have hretain : retain_dedup_exclude [] [] (cidr21.addresses ++ cidr24.addresses) =
      cidr21.addresses :=
    retain_fresh_append _ _ _ (addresses_nodup _) (by simp)
      (fun y hy => Or.inl (addresses_subset_of_le (by decide) (by decide) (by decide) y hy))
  refine ⟨?_, ?_, addresses_nodup _⟩
  · have hd1 : direct_pass env Resolver.system ["79.98.104.0/24"] =
        (cidr24.addresses, []) := by
      unfold direct_pass
      rw [hp24]
      simp [direct_pass, addresses_ne_empty]
    have hd : direct_pass env Resolver.system ["79.98.104.0/21", "79.98.104.0/24"] =
        (cidr21.addresses ++ cidr24.addresses, []) := by
      unfold direct_pass
      rw [hp21, hd1]
      simp [addresses_ne_empty]
    unfold parse_addresses
    rw [hres]
    refine congrArg some ?_
    dsimp only
    rw [hd]
    dsimp only
    rw [show file_pass env fs Resolver.system [] = ([], []) from rfl]
    dsimp only [parse_excluded_networks]
    rw [List.append_nil, hretain]
    rfl
  · show cidr21.addresses.length = 2048
    rw [addresses_length]
    decide

/-- Witness for C9 at the inert environment. -/
theorem overlapping_cidrs_dedup_witness :
    parse_addresses envW fsW { addresses := ["79.98.104.0/21", "79.98.104.0/24"] } =
      some { ips := block21, warnings := [] } ∧
    block21.length = 2048 ∧ block21.Nodup :=
  overlapping_cidrs_dedup envW fsW rfl

/-- Addresses of the same family with the same numeric value are
equal. -/
theorem eq_of_fam_val {a b : IpAddr} (hf : a.fam = b.fam) (hv : a.val = b.val) : a = b := by
  cases a <;> cases b <;> simp_all [IpAddr.fam, IpAddr.val]

/-- C10: an exclusion entry built from a single-IP spec is the
host-length network of that IP; every entry built when the CIDR parse
fails (the single-IP and hostname paths) is host-length; and a
host-length entry contains exactly its own address, never a surrounding
block. -/
theorem exclusion_entries_host_length (env : DnsEnv) (r : Resolver) (a s : String)
    (ip b x : IpAddr) :
    (IpAddr.from_str a = some ip →
      parse_single_excluded_address env a r = [IpCidr.new_host ip]) ∧
    (IpCidr.from_str s = none →
      ∀ c ∈ parse_single_excluded_address env s r, c.networkLength = c.fam.bits) ∧
    ((IpCidr.new_host b).contains x = true ↔ x = b) := by
  refine ⟨?_, ?_, ?_⟩
  · intro hip
    have hnsl := from_str_no_slash hip
    have hcidr : IpCidr.from_str a = some (IpCidr.new_host ip) := by
      unfold IpCidr.from_str splitLastSlash
      rw [if_neg hnsl, hip]
      rfl
    simp [parse_single_excluded_address, hcidr]
  · intro hcidr c hc
    unfold parse_single_excluded_address at hc
    rw [hcidr] at hc
    cases hip : IpAddr.from_str s with
    | some ip' =>
      rw [hip] at hc
      simp at hc
      subst hc
      rfl
    | none =>
      rw [hip] at hc
      simp at hc
      obtain ⟨y, hy, rfl⟩ := hc
      rfl
  · unfold IpCidr.contains IpCidr.new_host
    simp only [Nat.sub_self, pow_zero, Nat.div_one, Bool.and_eq_true, beq_iff_eq]
    constructor
    · intro h
      exact eq_of_fam_val h.1 h.2
    · intro h
      subst h
      exact ⟨rfl, rfl⟩

/-- Witness for C10: excluding the IP spec `10.0.0.1` yields its
host-length entry, which contains exactly that address. -/
theorem exclusion_entries_host_length_witness :
    parse_single_excluded_address envW "10.0.0.1" Resolver.system =
      [IpCidr.new_host (.v4 167772161)] ∧
    ((IpCidr.new_host (IpAddr.v4 167772161)).contains (IpAddr.v4 167772161) = true ↔
      IpAddr.v4 167772161 = IpAddr.v4 167772161) :=
  ⟨(exclusion_entries_host_length envW .system "10.0.0.1" "x" (.v4 167772161) (.v4 0)
      (.v4 0)).1 (by decide),
   (exclusion_entries_host_length envW .system "10.0.0.1" "x" (.v4 167772161)
      (.v4 167772161) (.v4 167772161)).2.2⟩

end RustScan
